import Mathlib

/-!
Shallow embedding of the Daily-to-Weekly Symptom Nowcasting & Alert Engine
(`src/backend/app/services/user_dashboard.py`).  Python floats are modelled
as rationals; `None` as `Option.none`; `date` objects as integers counting
days, anchored so that day `0` is a Monday (so Python's `date.weekday()`
is `d % 7` and `date - timedelta(days=date.weekday())` is `d - d % 7`).
-/

namespace Dashboard

/-- A check-in row, with the challenge counts already extracted from the
JSON note by `_parse_checkin_note` (both counts are clamped to ≥ 0 there,
hence `ℕ`). -/
structure CheckinEvent where
  day : ℤ
  mood_score : ℚ
  sleep_hours : Option ℚ
  challenge_completed : ℕ
  challenge_total : ℕ
  exercised : Bool
deriving DecidableEq, Repr

/-- A chat row after LLM extraction: each indicator is present only when the
`extracted` dict carried it; `distortion_total` is the summed distortion
counters, present exactly when the dict had a `distortion` mapping. -/
structure ChatEvent where
  day : ℤ
  distress : Option ℚ
  rumination : Option ℚ
  sleep_difficulty : Option ℚ
  distortion_total : Option ℚ
deriving DecidableEq, Repr

/-- A PHQ-9 assessment row. -/
structure AssessmentEvent where
  day : ℤ
  total_score : ℚ
deriving DecidableEq, Repr

/-- The tagged union of the three raw event kinds for one user. -/
inductive RawEvent
  | checkin : CheckinEvent → RawEvent
  | chat : ChatEvent → RawEvent
  | assessment : AssessmentEvent → RawEvent
deriving DecidableEq, Repr

def RawEvent.asCheckin : RawEvent → Option CheckinEvent
  | .checkin c => some c
  | _ => none

def RawEvent.asChat : RawEvent → Option ChatEvent
  | .chat c => some c
  | _ => none

def RawEvent.asAssessment : RawEvent → Option AssessmentEvent
  | .assessment a => some a
  | _ => none

/-- The check-in rows of the event list (the `checkins_stmt` query). -/
def checkins (events : List RawEvent) : List CheckinEvent :=
  events.filterMap RawEvent.asCheckin

/-- The chat rows of the event list (the `chats_stmt` query). -/
def chats (events : List RawEvent) : List ChatEvent :=
  events.filterMap RawEvent.asChat

/-- The PHQ-9 assessment rows of the event list (the `assessments_stmt` query). -/
def assessments (events : List RawEvent) : List AssessmentEvent :=
  events.filterMap RawEvent.asAssessment

/-- `_mean`: `None` on an empty list, else the arithmetic mean. -/
def mean (values : List ℚ) : Option ℚ :=
  if values = [] then none else some (values.sum / values.length)

/-- Accumulator of `_weighted_score`: running `(numer, denom)` over the
pairs, skipping pairs whose value is `None`. -/
def weightedAccum : List (Option ℚ × ℚ) → ℚ × ℚ
  | [] => (0, 0)
  | (none, _) :: rest => weightedAccum rest
  | (some v, w) :: rest =>
      let s := weightedAccum rest
      (s.1 + v * w, s.2 + w)

/-- `_weighted_score`: weighted mean over the present values; `None` when
every value is absent (zero accumulated weight). -/
def weighted_score (pairs : List (Option ℚ × ℚ)) : Option ℚ :=
  let s := weightedAccum pairs
  if s.2 = 0 then none else some (s.1 / s.2)

/-- `_severity_bucket`. -/
def severity_bucket (score : ℚ) : String :=
  if score < 25 then "minimal"
  else if score < 50 then "mild"
  else if score < 75 then "moderate"
  else "severe"

/-- `_sleep_penalty`. -/
def sleep_penalty (sleep_hours : Option ℚ) : Option ℚ :=
  sleep_hours.map (fun v => min 100 (|v - 7.5| / 4.5 * 100))

/-- The per-check-in challenge completion rate (lines 134–140): ratio capped
at 1 when a positive total is recorded, else 1 for `exercised`, else 0. -/
def challengeRate (c : CheckinEvent) : ℚ :=
  if 0 < c.challenge_total then min 1 ((c.challenge_completed : ℚ) / (c.challenge_total : ℚ))
  else if c.exercised then 1 else 0

/-- The aggregated signals of one calendar day (the spec's `DailySignal`):
per-field daily means, plus the carried questionnaire percent. -/
structure DailySignal where
  mood : Option ℚ
  sleep_hours : Option ℚ
  distress : Option ℚ
  rumination : Option ℚ
  sleep_difficulty : Option ℚ
  distortion_total : Option ℚ
  challenge_completion_rate : Option ℚ
  carried_questionnaire_percent : Option ℚ
deriving DecidableEq, Repr

def mood_inverse (s : DailySignal) : Option ℚ :=
  s.mood.map (fun m => (10 - m) * 10)

def distress_scaled (s : DailySignal) : Option ℚ :=
  s.distress.map (fun v => v * 10)

def rum_scaled (s : DailySignal) : Option ℚ :=
  s.rumination.map (fun v => v * 10)

def sleep_diff_scaled (s : DailySignal) : Option ℚ :=
  s.sleep_difficulty.map (fun v => v * 10)

def distortion_scaled (s : DailySignal) : Option ℚ :=
  s.distortion_total.map (fun t => min 100 (t * 12))

def sleep_pen (s : DailySignal) : Option ℚ :=
  sleep_penalty s.sleep_hours

/-- The four weighted terms of the depression blend (lines 193–198). -/
def depPairs (s : DailySignal) : List (Option ℚ × ℚ) :=
  [(s.carried_questionnaire_percent, 0.45), (mood_inverse s, 0.25),
   (rum_scaled s, 0.2), (distortion_scaled s, 0.1)]

/-- The four weighted terms of the anxiety blend (lines 199–204). -/
def anxPairs (s : DailySignal) : List (Option ℚ × ℚ) :=
  [(distress_scaled s, 0.45), (rum_scaled s, 0.25),
   (mood_inverse s, 0.2), (distortion_scaled s, 0.1)]

/-- The two weighted terms of the insomnia blend (lines 205–208). -/
def insPairs (s : DailySignal) : List (Option ℚ × ℚ) :=
  [(sleep_diff_scaled s, 0.6), (sleep_pen s, 0.4)]

/-- Blended depression score with the 50.0 fallback (lines 193–198, 210). -/
def depBase (s : DailySignal) : ℚ := (weighted_score (depPairs s)).getD 50

/-- Blended anxiety score with the 50.0 fallback (lines 199–204, 211). -/
def anxBase (s : DailySignal) : ℚ := (weighted_score (anxPairs s)).getD 50

/-- Blended insomnia score with the 50.0 fallback (lines 205–208, 212). -/
def insBase (s : DailySignal) : ℚ := (weighted_score (insPairs s)).getD 50

/-- The behavioral adjustment (lines 214–217): subtract `k * rate` when the
challenge completion rate is defined; no change when it is absent. -/
def adjusted (base : ℚ) (rate : Option ℚ) (k : ℚ) : ℚ :=
  match rate with
  | none => base
  | some r => base - r * k

/-- Pre-clip depression score: blend, then behavioral adjustment. -/
def depPre (s : DailySignal) : ℚ := adjusted (depBase s) s.challenge_completion_rate 12

/-- Pre-clip anxiety score: blend, then behavioral adjustment. -/
def anxPre (s : DailySignal) : ℚ := adjusted (anxBase s) s.challenge_completion_rate 10

/-- Pre-clip insomnia score: blend, then behavioral adjustment. -/
def insPre (s : DailySignal) : ℚ := adjusted (insBase s) s.challenge_completion_rate 6

/-- Clip to `[0, 100]` (lines 219–221 and again at 226–228). -/
def clip (x : ℚ) : ℚ := max 0 (min 100 x)

def depScore (s : DailySignal) : ℚ := clip (depPre s)

def anxScore (s : DailySignal) : ℚ := clip (anxPre s)

def insScore (s : DailySignal) : ℚ := clip (insPre s)

/-- The spec's `DailyProxyScore`: one row of `day_scores` (lines 223–230;
the appended values go through the clip a second time there). -/
structure DayScore where
  day : ℤ
  dep : ℚ
  anx : ℚ
  ins : ℚ
deriving DecidableEq, Repr

def scoreForDay (d : ℤ) (s : DailySignal) : DayScore :=
  ⟨d, clip (depScore s), clip (anxScore s), clip (insScore s)⟩

/-! ### Daily aggregation (lines 126–191) -/

/-- The `mood` values appended for day `d` (every check-in contributes). -/
def moodVals (events : List RawEvent) (d : ℤ) : List ℚ :=
  ((checkins events).filter (fun c => c.day = d)).map (fun c => c.mood_score)

/-- The `sleep_hours` values appended for day `d` (only non-`None` hours). -/
def sleepVals (events : List RawEvent) (d : ℤ) : List ℚ :=
  ((checkins events).filter (fun c => c.day = d)).filterMap (fun c => c.sleep_hours)

/-- The `challenge_completion_rate` values for day `d` (one per check-in). -/
def challengeVals (events : List RawEvent) (d : ℤ) : List ℚ :=
  ((checkins events).filter (fun c => c.day = d)).map challengeRate

def distressVals (events : List RawEvent) (d : ℤ) : List ℚ :=
  ((chats events).filter (fun c => c.day = d)).filterMap (fun c => c.distress)

def rumVals (events : List RawEvent) (d : ℤ) : List ℚ :=
  ((chats events).filter (fun c => c.day = d)).filterMap (fun c => c.rumination)

def sleepDiffVals (events : List RawEvent) (d : ℤ) : List ℚ :=
  ((chats events).filter (fun c => c.day = d)).filterMap (fun c => c.sleep_difficulty)

def distortionVals (events : List RawEvent) (d : ℤ) : List ℚ :=
  ((chats events).filter (fun c => c.day = d)).filterMap (fun c => c.distortion_total)

def phqVals (events : List RawEvent) (d : ℤ) : List ℚ :=
  ((assessments events).filter (fun a => a.day = d)).map (fun a => a.total_score)

/-- Whether a chat row writes anything at all into `day_data` (a chat whose
`extracted` dict has none of the recognized fields creates no day entry). -/
def ChatEvent.contributes (c : ChatEvent) : Bool :=
  c.distress.isSome || c.rumination.isSome || c.sleep_difficulty.isSome ||
    c.distortion_total.isSome

/-- The days holding at least one `day_data` entry, with repetitions. -/
def dayList (events : List RawEvent) : List ℤ :=
  ((checkins events).map (fun c => c.day)) ++
    (((chats events).filter ChatEvent.contributes).map (fun c => c.day)) ++
    ((assessments events).map (fun a => a.day))

/-- `sorted(day_data.keys())`: the distinct event days in ascending order. -/
def sortedDays (events : List RawEvent) : List ℤ :=
  ((dayList events).dedup).insertionSort (· ≤ ·)

/-- Carry update of lines 183–184: a day with a PHQ mean replaces the carry
with `(mean / 27) * 100`; a day without one keeps it. -/
def newCarry (events : List RawEvent) (carry : Option ℚ) (d : ℤ) : Option ℚ :=
  match mean (phqVals events d) with
  | none => carry
  | some p => some (p / 27 * 100)

/-- The `DailySignal` of day `d` given the already-updated carry. -/
def signalForDay (events : List RawEvent) (carry : Option ℚ) (d : ℤ) : DailySignal :=
  { mood := mean (moodVals events d)
    sleep_hours := mean (sleepVals events d)
    distress := mean (distressVals events d)
    rumination := mean (rumVals events d)
    sleep_difficulty := mean (sleepDiffVals events d)
    distortion_total := mean (distortionVals events d)
    challenge_completion_rate := mean (challengeVals events d)
    carried_questionnaire_percent := carry }

/-- The daily loop of lines 170–191: thread the questionnaire carry through
the ascending days and emit one `DailySignal` per day. -/
def daySignals (events : List RawEvent) : Option ℚ → List ℤ → List DailySignal
  | _, [] => []
  | carry, d :: ds =>
      let c := newCarry events carry d
      signalForDay events c d :: daySignals events c ds

/-- `day_scores` (lines 171–230): one `DayScore` per day with any event. -/
def dayScores (events : List RawEvent) : List DayScore :=
  ((sortedDays events).zip
      (daySignals events none (sortedDays events))).map
    (fun p => scoreForDay p.1 p.2)

/-! ### Weekly roll-up (lines 232–254) -/

/-- `date - timedelta(days=date.weekday())` in the day-number model. -/
def weekStart (d : ℤ) : ℤ := d - d % 7

/-- `sorted(weekly.keys())`: the distinct week starts in ascending order. -/
def weekStarts (scores : List DayScore) : List ℤ :=
  ((scores.map (fun r => weekStart r.day)).dedup).insertionSort (· ≤ ·)

/-- The member days of the bucket keyed `w`, in `day_scores` order. -/
def weekMembers (scores : List DayScore) (w : ℤ) : List DayScore :=
  scores.filter (fun r => weekStart r.day = w)

/-- Python's `x or 50.0` applied to `_mean`'s result: both `None` and the
falsy float `0.0` are replaced by `50.0`. -/
def orFifty : Option ℚ → ℚ
  | none => 50
  | some v => if v = 0 then 50 else v

/-- The spec's `WeeklyRecord` before alert enrichment (lines 245–254). -/
structure WeeklyRow where
  week_start_date : ℤ
  dep_week : ℚ
  anx_week : ℚ
  ins_week : ℚ
  composite : ℚ
  active_days : ℕ
deriving DecidableEq, Repr

def weeklyRow (scores : List DayScore) (w : ℤ) : WeeklyRow :=
  let items := weekMembers scores w
  let dep_week := orFifty (mean (items.map (fun x => x.dep)))
  let anx_week := orFifty (mean (items.map (fun x => x.anx)))
  let ins_week := orFifty (mean (items.map (fun x => x.ins)))
  ⟨w, dep_week, anx_week, ins_week, (dep_week + anx_week + ins_week) / 3, items.length⟩

/-- `rows` of lines 237–254: one row per populated week, ascending keys. -/
def weeklyRows (scores : List DayScore) : List WeeklyRow :=
  (weekStarts scores).map (weeklyRow scores)

/-! ### Alert rule engine (`_apply_alert_rules`, lines 65–111) -/

/-- A `WeeklyRow` after alert enrichment (the full output dict). -/
structure AlertRow where
  week_start_date : ℤ
  dep_week : ℚ
  anx_week : ℚ
  ins_week : ℚ
  composite : ℚ
  active_days : ℕ
  dep_week_delta : Option ℚ
  anx_week_delta : Option ℚ
  ins_week_delta : Option ℚ
  dep_severity : String
  anx_severity : String
  ins_severity : String
  rule_week_delta_worsen : ℕ
  rule_any_severe : ℕ
  rule_composite_high : ℕ
  alert_risk_score : ℕ
  alert_flag : ℕ
  alert_level : String
  alert_reason_codes : String
deriving DecidableEq, Repr

/-- `None if prev is None else cur - prev` (lines 75–77). -/
def deltaOf (prev : Option ℚ) (cur : ℚ) : Option ℚ :=
  prev.map (fun p => cur - p)

/-- `(delta or 0) >= 5` (lines 83–85; `None` and `0.0` both read as `0`). -/
def jump (delta : Option ℚ) : Bool :=
  decide (5 ≤ delta.getD 0)

def ruleDelta (dd ad idl : Option ℚ) : Bool :=
  jump dd || jump ad || jump idl

def ruleSevere (dep anx ins : ℚ) : Bool :=
  decide (severity_bucket dep = "severe") || decide (severity_bucket anx = "severe") ||
    decide (severity_bucket ins = "severe")

def ruleComposite (c : ℚ) : Bool :=
  decide (65 ≤ c)

/-- Line 95: `rule_week_delta_worsen * 1 + rule_any_severe * 2 + rule_composite_high * 2`. -/
def riskScore (rd rs rc : Bool) : ℕ :=
  (if rd then 1 else 0) * 1 + (if rs then 1 else 0) * 2 + (if rc then 1 else 0) * 2

/-- The `reasons` list of lines 100–106. -/
def reasonList (rd rs rc : Bool) : List String :=
  (if rd then ["worsening_delta"] else []) ++ (if rs then ["severe_band"] else []) ++
    (if rc then ["high_composite"] else [])

/-- The body of the `_apply_alert_rules` loop for one row, given the previous
row's `(dep, anx, ins)` scores (`None` before the first row). -/
def alertStep (prev : Option (ℚ × ℚ × ℚ)) (row : WeeklyRow) : AlertRow :=
  let dd := deltaOf (prev.map (fun p => p.1)) row.dep_week
  let ad := deltaOf (prev.map (fun p => p.2.1)) row.anx_week
  let idl := deltaOf (prev.map (fun p => p.2.2)) row.ins_week
  let rd := ruleDelta dd ad idl
  let rs := ruleSevere row.dep_week row.anx_week row.ins_week
  let rc := ruleComposite row.composite
  let score := riskScore rd rs rc
  { week_start_date := row.week_start_date
    dep_week := row.dep_week
    anx_week := row.anx_week
    ins_week := row.ins_week
    composite := row.composite
    active_days := row.active_days
    dep_week_delta := dd
    anx_week_delta := ad
    ins_week_delta := idl
    dep_severity := severity_bucket row.dep_week
    anx_severity := severity_bucket row.anx_week
    ins_severity := severity_bucket row.ins_week
    rule_week_delta_worsen := if rd then 1 else 0
    rule_any_severe := if rs then 1 else 0
    rule_composite_high := if rc then 1 else 0
    alert_risk_score := score
    alert_flag := if 2 ≤ score then 1 else 0
    alert_level := if 4 ≤ score then "high" else if 2 ≤ score then "medium" else "low"
    alert_reason_codes := String.intercalate "|" (reasonList rd rs rc) }

/-- `_apply_alert_rules`, with the `prev_dep/prev_anx/prev_ins` state made
explicit (all three are set together at the end of each iteration). -/
def apply_alert_rules : Option (ℚ × ℚ × ℚ) → List WeeklyRow → List AlertRow
  | _, [] => []
  | prev, r :: rs =>
      alertStep prev r :: apply_alert_rules (some (r.dep_week, r.anx_week, r.ins_week)) rs

/-- `build_user_weekly_dashboard`: the full pipeline over one user's events. -/
def build_user_weekly_dashboard (events : List RawEvent) : List AlertRow :=
  apply_alert_rules none (weeklyRows (dayScores events))

/-! ### Spec-side definitions (for refinement claims) -/

/-- The blend terms whose source signal is defined, as `(value, weight)`. -/
def presentTerms (pairs : List (Option ℚ × ℚ)) : List (ℚ × ℚ) :=
  pairs.filterMap (fun p => p.1.map (fun v => (v, p.2)))

/-- Written from the spec's words (section 4.2): a weighted blend that skips
undefined terms, renormalizes the weights over the remaining terms, and
defaults to the midpoint `50.0` when every term is undefined. -/
def specBlend (pairs : List (Option ℚ × ℚ)) : ℚ :=
  let ps := presentTerms pairs
  if ps = [] then 50
  else ((ps.map (fun q => q.1 * q.2)).sum) / ((ps.map (fun q => q.2)).sum)

/-- Written from the spec's words (section 4.4, rule 6): the ordered subset
of the three reason codes whose corresponding stored rule flag is set. -/
def firedCodes (r : AlertRow) : List String :=
  ["worsening_delta", "severe_band", "high_composite"].filter (fun c =>
    (c == "worsening_delta" && r.rule_week_delta_worsen == 1) ||
    (c == "severe_band" && r.rule_any_severe == 1) ||
    (c == "high_composite" && r.rule_composite_high == 1))

/-- The questionnaire carry after folding the update of lines 183–184 over
a list of days. -/
def lastCarry (events : List RawEvent) (c : Option ℚ) (ds : List ℤ) : Option ℚ :=
  ds.foldl (fun acc d => newCarry events acc d) c

/-- Whether day `d` has at least one assessment event. -/
def hasPhq (events : List RawEvent) (d : ℤ) : Bool :=
  !(phqVals events d).isEmpty

/-- The carried questionnaire percent emitted for the `i`-th aggregated day
(`none` when `i` is out of range). -/
def carriedAt (events : List RawEvent) (i : ℕ) : Option (Option ℚ) :=
  ((daySignals events none (sortedDays events))[i]?).map
    (fun s => s.carried_questionnaire_percent)

/-! ### Concrete inputs used by witnesses and counterexamples -/

/-- A single check-in: perfect mood, no sleep data, no challenge note, not
exercised, on a Monday.  Its daily proxies are `dep = anx = 0`, `ins = 50`. -/
def e1 : RawEvent := .checkin ⟨0, 10, none, 0, 0, false⟩

/-- An assessment of 18/27 on a Monday. -/
def eAssess : RawEvent := .assessment ⟨0, 18⟩

/-- A plain check-in on the following Tuesday. -/
def eTue : RawEvent := .checkin ⟨1, 5, none, 0, 0, false⟩

/-- A weekly row with mid-range scores. -/
def w1 : WeeklyRow := ⟨0, 40, 40, 40, 40, 1⟩

/-- A weekly row one week later with slightly higher scores. -/
def w2 : WeeklyRow := ⟨7, 50, 45, 41, 45, 1⟩

/-- The single output row that `build_user_weekly_dashboard [e1]` produces. -/
def outE1 : AlertRow :=
  { week_start_date := 0, dep_week := 50, anx_week := 50, ins_week := 50,
    composite := 50, active_days := 1,
    dep_week_delta := none, anx_week_delta := none, ins_week_delta := none,
    dep_severity := "moderate", anx_severity := "moderate", ins_severity := "moderate",
    rule_week_delta_worsen := 0, rule_any_severe := 0, rule_composite_high := 0,
    alert_risk_score := 0, alert_flag := 0, alert_level := "low",
    alert_reason_codes := "" }

/-! ### Helper lemmas -/

theorem weightedAccum_eq (pairs : List (Option ℚ × ℚ)) :
    weightedAccum pairs =
      (((presentTerms pairs).map (fun q => q.1 * q.2)).sum,
        ((presentTerms pairs).map (fun q => q.2)).sum) := by
  induction pairs with
  | nil => simp [weightedAccum, presentTerms]
  | cons p rest ih =>
      obtain ⟨v, w⟩ := p
      cases v with
      | none => simpa [weightedAccum, presentTerms, List.filterMap_cons] using ih
      | some x =>
          refine Prod.ext ?_ ?_ <;>
            simp [weightedAccum, presentTerms, List.filterMap_cons, ih] <;> ring

theorem presentTerms_weight_pos (pairs : List (Option ℚ × ℚ))
    (h : ∀ p ∈ pairs, 0 < p.2) : ∀ q ∈ presentTerms pairs, 0 < q.2 := by
  intro q hq
  rw [presentTerms, List.mem_filterMap] at hq
  obtain ⟨p, hp, hpq⟩ := hq
  cases hv : p.1 with
  | none => rw [hv] at hpq; simp at hpq
  | some x =>
      rw [hv] at hpq
      simp at hpq
      rw [← hpq]
      exact h p hp

/-- The code's blended-with-fallback score agrees with the spec's
renormalized blend whenever all the weights are positive. -/
theorem weighted_score_spec (pairs : List (Option ℚ × ℚ))
    (h : ∀ p ∈ pairs, 0 < p.2) :
    (weighted_score pairs).getD 50 = specBlend pairs := by
  rw [weighted_score, specBlend, weightedAccum_eq]
  by_cases hps : presentTerms pairs = []
  · simp [hps]
  · have hpos : 0 < ((presentTerms pairs).map (fun q => q.2)).sum := by
      apply List.sum_pos
      · intro x hx
        rw [List.mem_map] at hx
        obtain ⟨q, hq, rfl⟩ := hx
        exact presentTerms_weight_pos pairs h q hq
      · simpa using hps
    simp only [hps, if_false]
    rw [if_neg (by exact_mod_cast ne_of_gt hpos)]
    simp

theorem clip_bounds (x : ℚ) : 0 ≤ clip x ∧ clip x ≤ 100 :=
  ⟨le_max_left _ _, max_le (by norm_num) (min_le_left _ _)⟩

/-! ### Claims -/

/-- Claim C3: for every `DailySignal`, each of the three blended targets
(computed before the behavioral adjustment, `depBase`/`anxBase`/`insBase`)
equals the spec's weighted blend over its stated terms and weights —
`dep`: carried questionnaire 0.45, mood inverse 0.25, rumination 0.20,
distortion 0.10; `anx`: distress 0.45, rumination 0.25, mood inverse 0.20,
distortion 0.10; `ins`: sleep difficulty 0.60, sleep penalty 0.40 — with
undefined terms skipped, weights renormalized over the remaining terms, and
the `50.0` default when every term is undefined. -/
theorem claim3_weighted_blends (s : DailySignal) :
    depBase s = specBlend (depPairs s) ∧
    anxBase s = specBlend (anxPairs s) ∧
    insBase s = specBlend (insPairs s) := by
  refine ⟨weighted_score_spec _ ?_, weighted_score_spec _ ?_, weighted_score_spec _ ?_⟩
  · intro p hp
    simp only [depPairs, List.mem_cons, List.not_mem_nil, or_false] at hp
    rcases hp with rfl | rfl | rfl | rfl <;> norm_num
  · intro p hp
    simp only [anxPairs, List.mem_cons, List.not_mem_nil, or_false] at hp
    rcases hp with rfl | rfl | rfl | rfl <;> norm_num
  · intro p hp
    simp only [insPairs, List.mem_cons, List.not_mem_nil, or_false] at hp
    rcases hp with rfl | rfl <;> norm_num

/-- Claim C8: every emitted daily proxy score lies in `[0, 100]`, whatever
combination of defined and undefined (or extreme) inputs the day has. -/
theorem claim8_scores_clipped (d : ℤ) (s : DailySignal) :
    0 ≤ (scoreForDay d s).dep ∧ (scoreForDay d s).dep ≤ 100 ∧
    0 ≤ (scoreForDay d s).anx ∧ (scoreForDay d s).anx ≤ 100 ∧
    0 ≤ (scoreForDay d s).ins ∧ (scoreForDay d s).ins ≤ 100 :=
  ⟨(clip_bounds _).1, (clip_bounds _).2, (clip_bounds _).1, (clip_bounds _).2,
    (clip_bounds _).1, (clip_bounds _).2⟩

/-- Claim C7: on otherwise identical signals, a challenge completion rate of
`1.0` versus `0.0` lowers the pre-clip `dep/anx/ins` by exactly 12/10/6; the
adjustment happens after the weighted blend (`depPre = adjusted depBase`) and
before the clip (`depScore = clip depPre`); an undefined rate leaves the
blended values unadjusted. -/
theorem claim7_challenge_effect (s : DailySignal) :
    depPre {s with challenge_completion_rate := some 1} =
      depPre {s with challenge_completion_rate := some 0} - 12 ∧
    anxPre {s with challenge_completion_rate := some 1} =
      anxPre {s with challenge_completion_rate := some 0} - 10 ∧
    insPre {s with challenge_completion_rate := some 1} =
      insPre {s with challenge_completion_rate := some 0} - 6 ∧
    depScore s = clip (depPre s) ∧ anxScore s = clip (anxPre s) ∧
    insScore s = clip (insPre s) ∧
    depPre {s with challenge_completion_rate := none} =
      depBase {s with challenge_completion_rate := none} ∧
    anxPre {s with challenge_completion_rate := none} =
      anxBase {s with challenge_completion_rate := none} ∧
    insPre {s with challenge_completion_rate := none} =
      insBase {s with challenge_completion_rate := none} := by
  refine ⟨?_, ?_, ?_, rfl, rfl, rfl, rfl, rfl, rfl⟩ <;>
    · simp only [depPre, anxPre, insPre, adjusted]
      ring_nf
      rfl

/-! ### Alert rule engine: per-record claims -/

theorem severity_bucket_severe_iff (x : ℚ) : severity_bucket x = "severe" ↔ 75 ≤ x := by
  unfold severity_bucket
  split_ifs with h1 h2 h3
  · exact ⟨fun h => absurd h (by decide), fun h => absurd h1 (by linarith)⟩
  · exact ⟨fun h => absurd h (by decide), fun h => absurd h2 (by linarith)⟩
  · exact ⟨fun h => absurd h (by decide), fun h => absurd h3 (by linarith)⟩
  · exact ⟨fun _ => not_lt.mp h3, fun _ => rfl⟩

theorem jump_iff (d : Option ℚ) : jump d = true ↔ ∃ v, d = some v ∧ 5 ≤ v := by
  cases d with
  | none => simp [jump]
  | some v => simp [jump]

theorem ruleDelta_iff (a b c : Option ℚ) :
    ruleDelta a b c = true ↔
      (∃ v, a = some v ∧ 5 ≤ v) ∨ (∃ v, b = some v ∧ 5 ≤ v) ∨ (∃ v, c = some v ∧ 5 ≤ v) := by
  simp only [ruleDelta, Bool.or_eq_true, jump_iff, or_assoc]

theorem ruleSevere_iff (dep anx ins : ℚ) :
    ruleSevere dep anx ins = true ↔ (75 ≤ dep ∨ 75 ≤ anx ∨ 75 ≤ ins) := by
  simp only [ruleSevere, Bool.or_eq_true, decide_eq_true_eq, severity_bucket_severe_iff,
    or_assoc]

theorem bit_eq_one_iff (b : Bool) : (if b then (1 : ℕ) else 0) = 1 ↔ b = true := by
  cases b <;> simp

theorem ite_one_iff (p : Prop) [Decidable p] : (if p then (1 : ℕ) else 0) = 1 ↔ p := by
  split_ifs with h <;> simp [h]

theorem level_high_iff (n : ℕ) :
    (if 4 ≤ n then "high" else if 2 ≤ n then "medium" else "low") = "high" ↔ 4 ≤ n := by
  split_ifs with h1 h2
  · simp [h1]
  · exact ⟨fun h => absurd h (by decide), fun h => absurd h h1⟩
  · exact ⟨fun h => absurd h (by decide), fun h => absurd h h1⟩

theorem level_medium_iff (n : ℕ) :
    (if 4 ≤ n then "high" else if 2 ≤ n then "medium" else "low") = "medium" ↔
      (2 ≤ n ∧ n < 4) := by
  split_ifs with h1 h2
  · exact ⟨fun h => absurd h (by decide), fun h => absurd h1 (by omega)⟩
  · exact ⟨fun _ => ⟨h2, by omega⟩, fun _ => rfl⟩
  · exact ⟨fun h => absurd h (by decide), fun h => absurd h.1 h2⟩

theorem level_low_iff (n : ℕ) :
    (if 4 ≤ n then "high" else if 2 ≤ n then "medium" else "low") = "low" ↔ n < 2 := by
  split_ifs with h1 h2
  · exact ⟨fun h => absurd h (by decide), fun h => absurd h1 (by omega)⟩
  · exact ⟨fun h => absurd h (by decide), fun h => absurd h2 (by omega)⟩
  · exact ⟨fun _ => by omega, fun _ => rfl⟩

/-- Claim C2: for every weekly record the engine emits, `alert_reason_codes`
is exactly the ordered subset of `["worsening_delta", "severe_band",
"high_composite"]` whose corresponding rule fired, joined in that fixed
order, and is empty when no rule fires. -/
theorem claim2_reason_codes (prev : Option (ℚ × ℚ × ℚ)) (row : WeeklyRow) :
    (alertStep prev row).alert_reason_codes =
      String.intercalate "|" (firedCodes (alertStep prev row)) ∧
    ((alertStep prev row).alert_risk_score = 0 →
      (alertStep prev row).alert_reason_codes = "") := by
  simp only [alertStep]
  cases hd : ruleDelta (deltaOf (prev.map (fun p => p.1)) row.dep_week)
      (deltaOf (prev.map (fun p => p.2.1)) row.anx_week)
      (deltaOf (prev.map (fun p => p.2.2)) row.ins_week) <;>
    cases hs : ruleSevere row.dep_week row.anx_week row.ins_week <;>
      cases hc : ruleComposite row.composite <;>
        exact ⟨rfl, fun h => by first | rfl | simp [riskScore] at h⟩

/-- Witness for C2 at a concrete no-alert row: the implication's premise is
discharged (risk score 0) and the code string is empty. -/
theorem claim2_reason_codes_witness :
    (alertStep none w1).alert_risk_score = 0 ∧
      (alertStep none w1).alert_reason_codes = "" :=
  ⟨rfl, (claim2_reason_codes none w1).2 rfl⟩

/-- Claim C5: for every weekly record the engine emits, the risk score is
`1*rule_week_delta_worsen + 2*rule_any_severe + 2*rule_composite_high`, where
the delta rule fires iff some delta is defined and ≥ 5, the severe rule fires
iff some weekly score is ≥ 75 (equivalently its severity bucket is severe),
and the composite rule fires iff `composite ≥ 65`; `alert_flag` is set iff
the score is ≥ 2; `alert_level` is high iff score ≥ 4, medium iff it is in
`[2, 4)`, and low otherwise. -/
theorem claim5_risk_score (prev : Option (ℚ × ℚ × ℚ)) (row : WeeklyRow) :
    (alertStep prev row).alert_risk_score =
      (alertStep prev row).rule_week_delta_worsen * 1 +
        (alertStep prev row).rule_any_severe * 2 +
        (alertStep prev row).rule_composite_high * 2 ∧
    ((alertStep prev row).rule_week_delta_worsen = 1 ↔
      (∃ v, (alertStep prev row).dep_week_delta = some v ∧ 5 ≤ v) ∨
        (∃ v, (alertStep prev row).anx_week_delta = some v ∧ 5 ≤ v) ∨
        (∃ v, (alertStep prev row).ins_week_delta = some v ∧ 5 ≤ v)) ∧
    ((alertStep prev row).rule_any_severe = 1 ↔
      (75 ≤ (alertStep prev row).dep_week ∨ 75 ≤ (alertStep prev row).anx_week ∨
        75 ≤ (alertStep prev row).ins_week)) ∧
    ((alertStep prev row).dep_severity = "severe" ↔ 75 ≤ (alertStep prev row).dep_week) ∧
    ((alertStep prev row).anx_severity = "severe" ↔ 75 ≤ (alertStep prev row).anx_week) ∧
    ((alertStep prev row).ins_severity = "severe" ↔ 75 ≤ (alertStep prev row).ins_week) ∧
    ((alertStep prev row).rule_composite_high = 1 ↔ 65 ≤ (alertStep prev row).composite) ∧
    ((alertStep prev row).alert_flag = 1 ↔ 2 ≤ (alertStep prev row).alert_risk_score) ∧
    ((alertStep prev row).alert_level = "high" ↔ 4 ≤ (alertStep prev row).alert_risk_score) ∧
    ((alertStep prev row).alert_level = "medium" ↔
      (2 ≤ (alertStep prev row).alert_risk_score ∧ (alertStep prev row).alert_risk_score < 4)) ∧
    ((alertStep prev row).alert_level = "low" ↔ (alertStep prev row).alert_risk_score < 2) := by
  simp only [alertStep]
  refine ⟨?_, ?_, ?_, ?_, ?_, ?_, ?_, ?_, ?_, ?_, ?_⟩
  · cases hd : ruleDelta (deltaOf (prev.map (fun p => p.1)) row.dep_week)
        (deltaOf (prev.map (fun p => p.2.1)) row.anx_week)
        (deltaOf (prev.map (fun p => p.2.2)) row.ins_week) <;>
      cases hs : ruleSevere row.dep_week row.anx_week row.ins_week <;>
        cases hc : ruleComposite row.composite <;> rfl
  · rw [bit_eq_one_iff, ruleDelta_iff]
  · rw [bit_eq_one_iff, ruleSevere_iff]
  · exact severity_bucket_severe_iff _
  · exact severity_bucket_severe_iff _
  · exact severity_bucket_severe_iff _
  · rw [bit_eq_one_iff, ruleComposite]
    simp
  · exact ite_one_iff _
  · exact level_high_iff _
  · exact level_medium_iff _
  · exact level_low_iff _

/-! ### Alert rule engine: sequence claims -/

theorem apply_alert_rules_length (p : Option (ℚ × ℚ × ℚ)) (rows : List WeeklyRow) :
    (apply_alert_rules p rows).length = rows.length := by
  induction rows generalizing p with
  | nil => rfl
  | cons r rs ih => simp [apply_alert_rules, ih]

theorem apply_alert_rules_cons (p : Option (ℚ × ℚ × ℚ)) (r : WeeklyRow)
    (rs : List WeeklyRow) :
    apply_alert_rules p (r :: rs) =
      alertStep p r :: apply_alert_rules (some (r.dep_week, r.anx_week, r.ins_week)) rs := rfl

theorem apply_alert_rules_get_succ (rows : List WeeklyRow) :
    ∀ (p : Option (ℚ × ℚ × ℚ)) (i : ℕ) (r₀ r₁ : WeeklyRow),
      rows[i]? = some r₀ → rows[i + 1]? = some r₁ →
      (apply_alert_rules p rows)[i + 1]? =
        some (alertStep (some (r₀.dep_week, r₀.anx_week, r₀.ins_week)) r₁) := by
  induction rows with
  | nil => intro p i r₀ r₁ h₀ _; simp at h₀
  | cons r rs ih =>
      intro p i r₀ r₁ h₀ h₁
      cases i with
      | zero =>
          simp only [List.getElem?_cons_zero, Option.some.injEq] at h₀
          subst h₀
          simp only [List.getElem?_cons_succ] at h₁
          cases rs with
          | nil => simp at h₁
          | cons r' rs' =>
              simp only [List.getElem?_cons_zero, Option.some.injEq] at h₁
              subst h₁
              simp [apply_alert_rules_cons]
      | succ j =>
          simp only [List.getElem?_cons_succ] at h₀ h₁
          rw [apply_alert_rules_cons]
          simpa using ih (some (r.dep_week, r.anx_week, r.ins_week)) j r₀ r₁ h₀ h₁

theorem apply_alert_rules_mem (rows : List WeeklyRow) :
    ∀ (p : Option (ℚ × ℚ × ℚ)) (r : AlertRow), r ∈ apply_alert_rules p rows →
      ∃ q w, w ∈ rows ∧ r = alertStep q w := by
  induction rows with
  | nil => intro p r h; simp [apply_alert_rules] at h
  | cons w ws ih =>
      intro p r h
      rw [apply_alert_rules_cons, List.mem_cons] at h
      rcases h with h | h
      · exact ⟨p, w, List.mem_cons_self _ _, h⟩
      · obtain ⟨q, w', hw', hr⟩ := ih _ r h
        exact ⟨q, w', List.mem_cons_of_mem _ hw', hr⟩

/-- Claim C6: the engine is total on every ordered sequence of weekly rows
(one output per input, no exception path); the deltas of the first record
are all undefined and its delta rule cannot fire, and every later record's
deltas are exactly its scores minus the immediately preceding record's. -/
theorem claim6_deltas (rows : List WeeklyRow) :
    (apply_alert_rules none rows).length = rows.length ∧
    (∀ r, (apply_alert_rules none rows)[0]? = some r →
      r.dep_week_delta = none ∧ r.anx_week_delta = none ∧ r.ins_week_delta = none ∧
        r.rule_week_delta_worsen = 0) ∧
    (∀ i r₀ r₁ s, rows[i]? = some r₀ → rows[i + 1]? = some r₁ →
      (apply_alert_rules none rows)[i + 1]? = some s →
      s.dep_week_delta = some (r₁.dep_week - r₀.dep_week) ∧
        s.anx_week_delta = some (r₁.anx_week - r₀.anx_week) ∧
        s.ins_week_delta = some (r₁.ins_week - r₀.ins_week)) := by
  refine ⟨apply_alert_rules_length _ _, ?_, ?_⟩
  · intro r hr
    cases rows with
    | nil => simp [apply_alert_rules] at hr
    | cons w ws =>
        rw [apply_alert_rules_cons] at hr
        simp only [List.getElem?_cons_zero, Option.some.injEq] at hr
        subst hr
        refine ⟨rfl, rfl, rfl, ?_⟩
        simp [alertStep, deltaOf, ruleDelta, jump]
  · intro i r₀ r₁ s h₀ h₁ hs
    rw [apply_alert_rules_get_succ rows none i r₀ r₁ h₀ h₁] at hs
    simp only [Option.some.injEq] at hs
    subst hs
    exact ⟨rfl, rfl, rfl⟩

/-- Witness for C6 on a concrete two-week sequence. -/
theorem claim6_deltas_witness :
    ((([w1, w2] : List WeeklyRow)[0]? = some w1) ∧
      ([w1, w2] : List WeeklyRow)[1]? = some w2 ∧
      (apply_alert_rules none [w1, w2])[1]? =
        some (alertStep (some (40, 40, 40)) w2)) ∧
    (apply_alert_rules none [w1, w2]).length = 2 ∧
    (∀ s, (apply_alert_rules none [w1, w2])[1]? = some s →
      s.dep_week_delta = some (w2.dep_week - w1.dep_week)) :=
  ⟨⟨rfl, rfl, rfl⟩, (claim6_deltas [w1, w2]).1,
    fun s hs => ((claim6_deltas [w1, w2]).2.2 0 w1 w2 s rfl rfl hs).1⟩

/-! ### Carry-forward lemmas -/

theorem daySignals_length (events : List RawEvent) (ds : List ℤ) :
    ∀ c : Option ℚ, (daySignals events c ds).length = ds.length := by
  induction ds with
  | nil => intro c; rfl
  | cons d ds ih => intro c; simp [daySignals, ih]

theorem mean_eq_none_iff (l : List ℚ) : mean l = none ↔ l = [] := by
  unfold mean
  split_ifs with h <;> simp [h]

theorem newCarry_of_no_phq (events : List RawEvent) (c : Option ℚ) (d : ℤ)
    (h : hasPhq events d = false) : newCarry events c d = c := by
  have hnil : phqVals events d = [] := by
    rcases l : phqVals events d with _ | ⟨x, xs⟩
    · rfl
    · rw [hasPhq, l] at h
      simp at h
  rw [newCarry, hnil]
  rfl

theorem newCarry_of_phq (events : List RawEvent) (c : Option ℚ) (d : ℤ) (p : ℚ)
    (h : mean (phqVals events d) = some p) :
    newCarry events c d = some (p / 27 * 100) := by
  rw [newCarry, h]

theorem lastCarry_cons (events : List RawEvent) (c : Option ℚ) (d : ℤ) (ds : List ℤ) :
    lastCarry events c (d :: ds) = lastCarry events (newCarry events c d) ds := rfl

theorem daySignals_carried (events : List RawEvent) (ds : List ℤ) :
    ∀ (c : Option ℚ) (i : ℕ), i < ds.length →
      ((daySignals events c ds)[i]?).map (fun s => s.carried_questionnaire_percent) =
        some (lastCarry events c (ds.take (i + 1))) := by
  induction ds with
  | nil => intro c i hi; simp at hi
  | cons d ds ih =>
      intro c i hi
      cases i with
      | zero => simp [daySignals, signalForDay, lastCarry]
      | succ j =>
          have hj : j < ds.length := Nat.lt_of_succ_lt_succ hi
          simp only [daySignals, List.getElem?_cons_succ, List.take_succ_cons]
          rw [ih (newCarry events c d) j hj, lastCarry_cons]

theorem lastCarry_take_succ (events : List RawEvent) (ds : List ℤ) (i : ℕ)
    (hi : i < ds.length) (c : Option ℚ) :
    lastCarry events c (ds.take (i + 1)) =
      newCarry events (lastCarry events c (ds.take i)) (ds.get ⟨i, hi⟩) := by
  rw [List.take_succ, List.getElem?_eq_getElem hi, Option.toList_some]
  unfold lastCarry
  rw [List.foldl_append]
  rfl

theorem lastCarry_all_false (events : List RawEvent) (ds : List ℤ)
    (hall : ∀ d ∈ ds, hasPhq events d = false) :
    ∀ c : Option ℚ, lastCarry events c ds = c := by
  induction ds with
  | nil => intro c; rfl
  | cons d ds ih =>
      intro c
      rw [lastCarry_cons, newCarry_of_no_phq events c d (hall d (List.mem_cons_self _ _))]
      exact ih (fun d' hd' => hall d' (List.mem_cons_of_mem _ hd')) c

theorem lastCarry_span (events : List RawEvent) (ds : List ℤ) (c : Option ℚ) (j : ℕ) :
    ∀ i, j ≤ i → i < ds.length →
      (∀ l d'', j < l → l ≤ i → ds[l]? = some d'' → hasPhq events d'' = false) →
      lastCarry events c (ds.take (i + 1)) = lastCarry events c (ds.take (j + 1)) := by
  intro i
  induction i with
  | zero =>
      intro hj _ _
      interval_cases j
      rfl
  | succ k ih =>
      intro hj hi hno
      rcases Nat.lt_or_ge j (k + 1) with hlt | hge
      · have hk : k < ds.length := Nat.lt_of_succ_lt hi
        rw [lastCarry_take_succ events ds (k + 1) hi c]
        rw [newCarry_of_no_phq events _ _
          (hno (k + 1) (ds.get ⟨k + 1, hi⟩) hlt le_rfl (List.getElem?_eq_getElem hi))]
        exact ih (Nat.lt_succ_iff.mp hlt) hk
          (fun l d'' h1 h2 h3 => hno l d'' h1 (Nat.le_succ_of_le h2) h3)
      · have hjk : j = k + 1 := le_antisymm hj hge
        subst hjk
        rfl

theorem sortedDays_nodup (events : List RawEvent) : (sortedDays events).Nodup :=
  (List.perm_insertionSort _ _).nodup_iff.mpr (List.nodup_dedup _)

theorem sortedDays_pairwise_lt (events : List RawEvent) :
    List.Pairwise (· < ·) (sortedDays events) := by
  have h1 : List.Pairwise (· ≤ ·) (sortedDays events) :=
    List.sorted_insertionSort (· ≤ ·) ((dayList events).dedup)
  have h2 := sortedDays_nodup events
  exact (h1.and h2).imp (fun h => lt_of_le_of_ne h.1 h.2)

/-- Claim C4: days are iterated in ascending date order; the carried
questionnaire percent of a day is `(phq mean / 27) * 100` for the latest day
at or before it that has an assessment, is undefined while no assessment has
been seen yet, and is unchanged on days without an assessment. -/
theorem claim4_carry_forward (events : List RawEvent) :
    List.Pairwise (· < ·) (sortedDays events) ∧
    (∀ i d, (sortedDays events)[i]? = some d →
      ((∀ j d', j ≤ i → (sortedDays events)[j]? = some d' → hasPhq events d' = false) →
        carriedAt events i = some none) ∧
      (∀ p, mean (phqVals events d) = some p →
        carriedAt events i = some (some (p / 27 * 100))) ∧
      (∀ j d', j ≤ i → (sortedDays events)[j]? = some d' →
        (∀ l d'', j < l → l ≤ i → (sortedDays events)[l]? = some d'' →
          hasPhq events d'' = false) →
        ∀ p, mean (phqVals events d') = some p →
          carriedAt events i = some (some (p / 27 * 100))) ∧
      (hasPhq events d = false → ∀ k, i = k + 1 →
        carriedAt events i = carriedAt events k)) := by
  refine ⟨sortedDays_pairwise_lt events, ?_⟩
  intro i d hd
  have hi : i < (sortedDays events).length := by
    by_contra hge
    rw [List.getElem?_eq_none (Nat.le_of_not_lt hge)] at hd
    exact Option.noConfusion hd
  have hdi : (sortedDays events).get ⟨i, hi⟩ = d := by
    rw [List.getElem?_eq_getElem hi] at hd
    exact Option.some.inj hd
  have hcar : carriedAt events i =
      some (lastCarry events none ((sortedDays events).take (i + 1))) :=
    daySignals_carried events (sortedDays events) none i hi
  refine ⟨?_, ?_, ?_, ?_⟩
  · intro hall
    rw [hcar, lastCarry_all_false events _ ?_ none]
    intro d' hd'
    obtain ⟨j, hj, hjd⟩ := List.getElem_of_mem hd'
    have hjlen : j < (sortedDays events).length := lt_of_lt_of_le hj (by
      simp [List.length_take])
    rw [List.getElem_take] at hjd
    have hji : j ≤ i := Nat.lt_succ_iff.mp (lt_of_lt_of_le hj (by
      simp [List.length_take]))
    exact hall j d' hji (hjd ▸ List.getElem?_eq_getElem hjlen)
  · intro p hp
    rw [hcar, lastCarry_take_succ events _ i hi none, hdi,
      newCarry_of_phq events _ d p hp]
  · intro j d' hj hd' hno p hp
    have hjlen : j < (sortedDays events).length := by
      by_contra hge
      rw [List.getElem?_eq_none (Nat.le_of_not_lt hge)] at hd'
      exact Option.noConfusion hd'
    have hdj : (sortedDays events).get ⟨j, hjlen⟩ = d' := by
      rw [List.getElem?_eq_getElem hjlen] at hd'
      exact Option.some.inj hd'
    rw [hcar, lastCarry_span events (sortedDays events) none j i hj hi hno,
      lastCarry_take_succ events _ j hjlen none, hdj,
      newCarry_of_phq events _ d' p hp]
  · intro hno k hk
    subst hk
    have hk' : k < (sortedDays events).length := Nat.lt_of_succ_lt hi
    rw [hcar, lastCarry_take_succ events _ (k + 1) hi none, hdi,
      newCarry_of_no_phq events _ d hno]
    exact (daySignals_carried events (sortedDays events) none k hk').symm

/-- Witness for C4: assessment on Monday, plain check-in on Tuesday — the
Tuesday carry equals the Monday carry. -/
theorem claim4_carry_forward_witness :
    ((sortedDays [eAssess, eTue])[1]? = some 1) ∧
      hasPhq [eAssess, eTue] 1 = false ∧
      carriedAt [eAssess, eTue] 1 = carriedAt [eAssess, eTue] 0 :=
  ⟨rfl, rfl,
    (((claim4_carry_forward [eAssess, eTue]).2 1 1 rfl).2.2.2) rfl 0 rfl⟩

/-! ### Weekly roll-up lemmas and the active-days claim -/

theorem dayScores_map_day (events : List RawEvent) :
    (dayScores events).map (fun r => r.day) = sortedDays events := by
  unfold dayScores
  rw [List.map_map]
  rw [show ((fun r : DayScore => r.day) ∘ fun p : ℤ × DailySignal => scoreForDay p.1 p.2) =
    Prod.fst from rfl]
  exact List.map_fst_zip _ _ (le_of_eq (daySignals_length events _ none).symm)

theorem weekStart_bounds (d : ℤ) : weekStart d ≤ d ∧ d < weekStart d + 7 := by
  have h1 : 0 ≤ d % 7 := Int.emod_nonneg d (by norm_num)
  have h2 : d % 7 < 7 := Int.emod_lt_of_pos d (by norm_num)
  unfold weekStart
  omega

theorem weekStarts_mem (scores : List DayScore) (w : ℤ) (h : w ∈ weekStarts scores) :
    ∃ r ∈ scores, weekStart r.day = w := by
  unfold weekStarts at h
  rw [(List.perm_insertionSort _ _).mem_iff, List.mem_dedup, List.mem_map] at h
  exact h

theorem nodup_bounded_length (l : List ℤ) (a : ℤ) (hn : l.Nodup)
    (hb : ∀ x ∈ l, a ≤ x ∧ x < a + 7) : l.length ≤ 7 := by
  have hsub : l.toFinset ⊆ Finset.Ico a (a + 7) := by
    intro x hx
    rw [List.mem_toFinset] at hx
    rw [Finset.mem_Ico]
    exact hb x hx
  have := Finset.card_le_card hsub
  rw [List.toFinset_card_of_nodup hn, Int.card_Ico] at this
  omega

theorem weekMembers_days_nodup (events : List RawEvent) (w : ℤ) :
    ((weekMembers (dayScores events) w).map (fun r => r.day)).Nodup := by
  have hsub : ((weekMembers (dayScores events) w).map (fun r => r.day)).Sublist
      ((dayScores events).map (fun r => r.day)) :=
    (List.filter_sublist _).map _
  rw [dayScores_map_day] at hsub
  exact (sortedDays_nodup events).sublist hsub

theorem weekMembers_length_le (events : List RawEvent) (w : ℤ) :
    (weekMembers (dayScores events) w).length ≤ 7 := by
  have hlen : (weekMembers (dayScores events) w).length =
      ((weekMembers (dayScores events) w).map (fun r => r.day)).length :=
    (List.length_map _ _).symm
  rw [hlen]
  apply nodup_bounded_length _ w (weekMembers_days_nodup events w)
  intro x hx
  rw [List.mem_map] at hx
  obtain ⟨r, hr, rfl⟩ := hx
  have hw : weekStart r.day = w := by
    unfold weekMembers at hr
    have := (List.mem_filter.mp hr).2
    exact of_decide_eq_true this
  have := weekStart_bounds r.day
  omega

theorem weekMembers_ne_nil (scores : List DayScore) (w : ℤ) (h : w ∈ weekStarts scores) :
    weekMembers scores w ≠ [] := by
  obtain ⟨r, hr, hw⟩ := weekStarts_mem scores w h
  intro hnil
  have : r ∈ weekMembers scores w :=
    List.mem_filter.mpr ⟨hr, decide_eq_true hw⟩
  rw [hnil] at this
  exact List.not_mem_nil r this

/-- Claim C10: every emitted weekly record has `active_days` between 1 and 7:
only non-empty ISO-week buckets produce a record, and a Monday-keyed bucket
holds at most seven distinct days. -/
theorem claim10_active_days (events : List RawEvent) (r : AlertRow)
    (h : r ∈ build_user_weekly_dashboard events) :
    1 ≤ r.active_days ∧ r.active_days ≤ 7 := by
  obtain ⟨q, wrow, hw, rfl⟩ := apply_alert_rules_mem _ none r h
  have hact : (alertStep q wrow).active_days = wrow.active_days := rfl
  rw [hact]
  unfold weeklyRows at hw
  obtain ⟨ws, hws, rfl⟩ := List.mem_map.mp hw
  have hact2 : (weeklyRow (dayScores events) ws).active_days =
      (weekMembers (dayScores events) ws).length := rfl
  rw [hact2]
  constructor
  · have := weekMembers_ne_nil (dayScores events) ws hws
    have := List.length_pos.mpr this
    omega
  · exact weekMembers_length_le events ws

/-! ### Concrete evaluation of the pipeline on `e1` -/

theorem dayScores_e1 : dayScores [e1] = [⟨0, 0, 0, 50⟩] := by
  have hsig : signalForDay [e1] none 0 =
      { mood := some 10, sleep_hours := none, distress := none, rumination := none,
        sleep_difficulty := none, distortion_total := none,
        challenge_completion_rate := some 0, carried_questionnaire_percent := none } := by
    rw [signalForDay, show moodVals [e1] 0 = [10] from rfl,
      show sleepVals [e1] 0 = [] from rfl, show distressVals [e1] 0 = [] from rfl,
      show rumVals [e1] 0 = [] from rfl, show sleepDiffVals [e1] 0 = [] from rfl,
      show distortionVals [e1] 0 = [] from rfl, show challengeVals [e1] 0 = [0] from rfl]
    norm_num [mean]
  have h0 : dayScores [e1] = [scoreForDay 0 (signalForDay [e1] none 0)] := rfl
  rw [h0, hsig]
  norm_num [scoreForDay, depScore, anxScore, insScore, depPre, anxPre, insPre, adjusted,
    depBase, anxBase, insBase, weighted_score, weightedAccum, depPairs, anxPairs, insPairs,
    mood_inverse, distress_scaled, rum_scaled, sleep_diff_scaled, distortion_scaled,
    sleep_pen, sleep_penalty, clip]

theorem weeklyRow_e1 : weeklyRow [(⟨0, 0, 0, 50⟩ : DayScore)] 0 = ⟨0, 50, 50, 50, 50, 1⟩ := by
  have hitems : weekMembers [(⟨0, 0, 0, 50⟩ : DayScore)] 0 = [⟨0, 0, 0, 50⟩] := rfl
  rw [weeklyRow, hitems]
  norm_num [orFifty, mean]

theorem build_e1_eval : build_user_weekly_dashboard [e1] = [outE1] := by
  rw [build_user_weekly_dashboard, dayScores_e1]
  rw [show weeklyRows [(⟨0, 0, 0, 50⟩ : DayScore)] =
    [weeklyRow [(⟨0, 0, 0, 50⟩ : DayScore)] 0] from rfl]
  rw [weeklyRow_e1]
  rfl

/-- Claim C1 evidence: on a single Monday check-in with perfect mood, the
day's `dep` proxy is `0`, the bucket mean of the member days' `dep` is `0`,
yet the emitted weekly record reports `dep_week = 50` — Python's
`_mean(...) or 50.0` replaces the falsy mean `0.0` with the default. -/
theorem claim1_zero_mean_divergence :
    (dayScores [e1]).map (fun r => r.dep) = [0] ∧
    weekMembers (dayScores [e1]) 0 = dayScores [e1] ∧
    mean ((weekMembers (dayScores [e1]) 0).map (fun r => r.dep)) = some 0 ∧
    (build_user_weekly_dashboard [e1]).map
      (fun r => (r.week_start_date, r.dep_week, r.active_days)) = [(0, 50, 1)] ∧
    (50 : ℚ) ≠ 0 := by
  refine ⟨by rw [dayScores_e1]; rfl, by rw [dayScores_e1]; rfl, ?_,
    by rw [build_e1_eval]; rfl, by norm_num⟩
  rw [dayScores_e1]
  norm_num [weekMembers, weekStart, mean]

/-- Witness for C10 at the concrete single-check-in input. -/
theorem claim10_active_days_witness :
    outE1 ∈ build_user_weekly_dashboard [e1] ∧
      (1 ≤ outE1.active_days ∧ outE1.active_days ≤ 7) :=
  ⟨build_e1_eval ▸ List.mem_singleton_self outE1,
    claim10_active_days [e1] outE1 (build_e1_eval ▸ List.mem_singleton_self outE1)⟩

/-! ### Permutation invariance and output order -/

theorem mean_perm {l l' : List ℚ} (h : l.Perm l') : mean l = mean l' := by
  unfold mean
  by_cases hl : l = []
  · subst hl
    rw [if_pos rfl, if_pos (List.Perm.eq_nil h.symm)]
  · have hl' : l' ≠ [] := fun he => hl (List.Perm.eq_nil (he ▸ h))
    rw [if_neg hl, if_neg hl', h.sum_eq, h.length_eq]

theorem moodVals_perm {l₁ l₂ : List RawEvent} (h : l₁.Perm l₂) (d : ℤ) :
    (moodVals l₁ d).Perm (moodVals l₂ d) := ((h.filterMap _).filter _).map _

theorem sleepVals_perm {l₁ l₂ : List RawEvent} (h : l₁.Perm l₂) (d : ℤ) :
    (sleepVals l₁ d).Perm (sleepVals l₂ d) := ((h.filterMap _).filter _).filterMap _

theorem challengeVals_perm {l₁ l₂ : List RawEvent} (h : l₁.Perm l₂) (d : ℤ) :
    (challengeVals l₁ d).Perm (challengeVals l₂ d) := ((h.filterMap _).filter _).map _

theorem distressVals_perm {l₁ l₂ : List RawEvent} (h : l₁.Perm l₂) (d : ℤ) :
    (distressVals l₁ d).Perm (distressVals l₂ d) := ((h.filterMap _).filter _).filterMap _

theorem rumVals_perm {l₁ l₂ : List RawEvent} (h : l₁.Perm l₂) (d : ℤ) :
    (rumVals l₁ d).Perm (rumVals l₂ d) := ((h.filterMap _).filter _).filterMap _

theorem sleepDiffVals_perm {l₁ l₂ : List RawEvent} (h : l₁.Perm l₂) (d : ℤ) :
    (sleepDiffVals l₁ d).Perm (sleepDiffVals l₂ d) := ((h.filterMap _).filter _).filterMap _

theorem distortionVals_perm {l₁ l₂ : List RawEvent} (h : l₁.Perm l₂) (d : ℤ) :
    (distortionVals l₁ d).Perm (distortionVals l₂ d) := ((h.filterMap _).filter _).filterMap _

theorem phqVals_perm {l₁ l₂ : List RawEvent} (h : l₁.Perm l₂) (d : ℤ) :
    (phqVals l₁ d).Perm (phqVals l₂ d) := ((h.filterMap _).filter _).map _

theorem signalForDay_perm {l₁ l₂ : List RawEvent} (h : l₁.Perm l₂) (c : Option ℚ) (d : ℤ) :
    signalForDay l₁ c d = signalForDay l₂ c d := by
  unfold signalForDay
  rw [mean_perm (moodVals_perm h d), mean_perm (sleepVals_perm h d),
    mean_perm (distressVals_perm h d), mean_perm (rumVals_perm h d),
    mean_perm (sleepDiffVals_perm h d), mean_perm (distortionVals_perm h d),
    mean_perm (challengeVals_perm h d)]

theorem newCarry_perm {l₁ l₂ : List RawEvent} (h : l₁.Perm l₂) (c : Option ℚ) (d : ℤ) :
    newCarry l₁ c d = newCarry l₂ c d := by
  unfold newCarry
  rw [mean_perm (phqVals_perm h d)]

theorem daySignals_congr {l₁ l₂ : List RawEvent} (h : l₁.Perm l₂) (ds : List ℤ) :
    ∀ c : Option ℚ, daySignals l₁ c ds = daySignals l₂ c ds := by
  induction ds with
  | nil => intro c; rfl
  | cons d ds ih =>
      intro c
      simp only [daySignals]
      rw [newCarry_perm h c d, signalForDay_perm h _ d, ih]

theorem dayList_perm {l₁ l₂ : List RawEvent} (h : l₁.Perm l₂) :
    (dayList l₁).Perm (dayList l₂) :=
  (((h.filterMap _).map _).append (((h.filterMap _).filter _).map _)).append
    ((h.filterMap _).map _)

theorem sortedDays_perm {l₁ l₂ : List RawEvent} (h : l₁.Perm l₂) :
    sortedDays l₁ = sortedDays l₂ := by
  unfold sortedDays
  exact List.eq_of_perm_of_sorted
    ((List.perm_insertionSort _ _).trans
      ((dayList_perm h).dedup.trans (List.perm_insertionSort _ _).symm))
    (List.sorted_insertionSort (· ≤ ·) ((dayList l₁).dedup))
    (List.sorted_insertionSort (· ≤ ·) ((dayList l₂).dedup))

theorem dayScores_perm {l₁ l₂ : List RawEvent} (h : l₁.Perm l₂) :
    dayScores l₁ = dayScores l₂ := by
  unfold dayScores
  rw [sortedDays_perm h, daySignals_congr h (sortedDays l₂) none]

theorem apply_alert_rules_map_week (rows : List WeeklyRow) :
    ∀ p : Option (ℚ × ℚ × ℚ),
      (apply_alert_rules p rows).map (fun r => r.week_start_date) =
        rows.map (fun r => r.week_start_date) := by
  induction rows with
  | nil => intro p; rfl
  | cons r rs ih =>
      intro p
      rw [apply_alert_rules_cons, List.map_cons, List.map_cons, ih]
      rfl

theorem weeklyRows_map_week (scores : List DayScore) :
    (weeklyRows scores).map (fun r => r.week_start_date) = weekStarts scores := by
  unfold weeklyRows
  rw [List.map_map]
  rw [show ((fun r : WeeklyRow => r.week_start_date) ∘ weeklyRow scores) = id from rfl]
  exact List.map_id _

theorem weekStarts_pairwise_lt (scores : List DayScore) :
    List.Pairwise (· < ·) (weekStarts scores) := by
  have h1 : List.Pairwise (· ≤ ·) (weekStarts scores) :=
    List.sorted_insertionSort (· ≤ ·) _
  have h2 : (weekStarts scores).Nodup :=
    (List.perm_insertionSort _ _).nodup_iff.mpr (List.nodup_dedup _)
  exact (h1.and h2).imp (fun h => lt_of_le_of_ne h.1 h.2)

/-- Claim C9: the dashboard is permutation-invariant in its input event list,
and its output is strictly ascending in `week_start_date`. -/
theorem claim9_determinism (l₁ l₂ : List RawEvent) (h : l₁.Perm l₂) :
    build_user_weekly_dashboard l₁ = build_user_weekly_dashboard l₂ ∧
    List.Pairwise (· < ·)
      ((build_user_weekly_dashboard l₁).map (fun r => r.week_start_date)) := by
  constructor
  · unfold build_user_weekly_dashboard
    rw [dayScores_perm h]
  · unfold build_user_weekly_dashboard
    rw [apply_alert_rules_map_week, weeklyRows_map_week]
    exact weekStarts_pairwise_lt _

/-- Witness for C9 on a concrete two-event permutation. -/
theorem claim9_determinism_witness :
    ([e1, eAssess].Perm [eAssess, e1]) ∧
      build_user_weekly_dashboard [e1, eAssess] =
        build_user_weekly_dashboard [eAssess, e1] :=
  ⟨List.Perm.swap eAssess e1 [],
    (claim9_determinism [e1, eAssess] [eAssess, e1] (List.Perm.swap eAssess e1 [])).1⟩

end Dashboard
